import Mathlib

/-!
Verification of the HSE docx-extractor repository.

The repository has two parts:

1. The core table-scanning extraction algorithm (HeaderResolver,
   DocumentTableScanner, SectionStateMachine, FieldAccumulator,
   RecordAssembler).  This code is not present under `src/`, so it is
   modelled here from the specification's component design (spec §3-§4).

2. The GBB market-data collaborator in `src/app.py` (`GBBRecord`,
   `fetch_gbb_data`, `import_gbb_data_to_db`, `get_gbb_records`), embedded
   directly from the source.

All string operations are re-implemented over `List Char` so that concrete
instances reduce in the kernel (`decide` / `rfl`).
-/

namespace HseExtractor

/-- Trim ASCII/Unicode whitespace from both ends of a character list
(the cell-text trimming used throughout the scanner). -/
def trimChars (cs : List Char) : List Char :=
  ((cs.dropWhile Char.isWhitespace).reverse.dropWhile Char.isWhitespace).reverse

/-- Trim whitespace from both ends of a string. -/
def trimStr (s : String) : String :=
  String.mk (trimChars s.data)

/-- `hasSub pat cs` : does `cs` contain `pat` as a contiguous substring? -/
def hasSub (pat : List Char) : List Char → Bool
  | [] => pat.isEmpty
  | c :: cs => pat.isPrefixOf (c :: cs) || hasSub pat cs

/-- Substring containment on strings. -/
def containsSub (s pat : String) : Bool :=
  hasSub pat.data s.data

/-- Modelled from the spec: the marker literal opening an HSE remarks block
(spec §4.3, glossary). -/
def hseMarker : String := "HSE"

/-- Modelled from the spec: the marker literal closing the HSE remarks block
(spec §4.3, glossary). -/
def productionMarker : String := "Production"

/-- Modelled from the spec: the sentinel value meaning "no remark"
(spec §3, glossary). -/
def nilSentinel : String := "Nil"

/-- Modelled from the spec: the default TrackedField configuration
(spec §3). -/
def defaultFields : List String := ["Mereenie", "Palm Valley", "BECGS/Dingo"]

/-- Zero-based position of the first cell equal to the field name. -/
def findColumn (field : String) : List String → Option Nat
  | [] => none
  | c :: cs => if c == field then some 0 else (findColumn field cs).map (· + 1)

/-- Modelled from the spec: HeaderResolver (spec §4.1).  Given a table's
(trimmed) header row, the zero-based column of the first cell exactly equal
to the field name, or `none` if absent.  Never fails. -/
def resolveHeader (header : List String) (field : String) : Option Nat :=
  findColumn field header

/-- Modelled from the spec: the three-way row action of the
SectionStateMachine (spec §4.3, design note §9). -/
inductive RowAction where
  | continueTable
  | recordAndContinue
  | stopTable
deriving DecidableEq, Repr

/-- A row is blank when every cell is empty after trimming (cells here are
already trimmed by the scanner). -/
def isBlankRow (row : List String) : Bool :=
  row.all (fun c => c == "")

/-- Does some (trimmed) cell equal the "HSE" marker? -/
def rowHasHse (row : List String) : Bool :=
  row.any (fun c => c == hseMarker)

/-- Does some (trimmed) cell equal the "Production" marker? -/
def rowHasProduction (row : List String) : Bool :=
  row.any (fun c => c == productionMarker)

/-- Modelled from the spec: per-row classification of the
SectionStateMachine in `SCANNING` state (spec §4.3 rules 1-4): blank rows
are ignored; an "HSE" cell makes a field-data row (priority over rule 3);
otherwise a "Production" cell terminates the table; otherwise ignore. -/
def classifyRow (row : List String) : RowAction :=
  if isBlankRow row then .continueTable
  else if rowHasHse row then .recordAndContinue
  else if rowHasProduction row then .stopTable
  else .continueTable

/-- Modelled from the spec: FieldAccumulator contents — a mapping from
TrackedField name to its ordered fragment list (spec §3, §4.4). -/
def FieldAcc : Type := String → List String

/-- All accumulators start empty (fresh per document, spec §3 lifecycle). -/
def emptyAcc : FieldAcc := fun _ => []

/-- Point update of one field's fragment list. -/
def setAcc (acc : FieldAcc) (f : String) (l : List String) : FieldAcc :=
  fun g => if g = f then l else acc g

/-- Modelled from the spec: the per-cell accumulator update of spec §4.3
rule 2: value "Nil" resets the list to `["Nil"]`; a non-empty value
containing neither marker substring is appended; anything else is
ignored. -/
def updateCell (l : List String) (v : String) : List String :=
  if v = nilSentinel then [nilSentinel]
  else if !(v == "") && !(containsSub v hseMarker) && !(containsSub v productionMarker) then
    l ++ [v]
  else l

/-- Modelled from the spec: processing of one HSE field-data row — for every
tracked field with a resolved column, its accumulator is updated from that
column's cell (spec §4.3 rule 2).  A column beyond the row's end has no cell
text; it is read as empty and hence ignored by `updateCell`. -/
def processHseRow (fields header row : List String) (acc : FieldAcc) : FieldAcc :=
  fields.foldl (fun a f =>
    match resolveHeader header f with
    | none => a
    | some i => setAcc a f (updateCell (a f) (row.getD i ""))) acc

/-- Modelled from the spec: the SectionStateMachine run over one table's
row sequence — `stopTable` abandons the remaining rows of the table;
`recordAndContinue` updates the accumulator and stays in `SCANNING`
(spec §4.3). -/
def scanRows (fields header : List String) : List (List String) → FieldAcc → FieldAcc
  | [], acc => acc
  | r :: rs, acc =>
    match classifyRow r with
    | .stopTable => acc
    | .recordAndContinue => scanRows fields header rs (processHseRow fields header r acc)
    | .continueTable => scanRows fields header rs acc

/-- Modelled from the spec: the error signalled when a table has zero rows
(spec §4.2, §7). -/
inductive StructureError where
  | emptyTable
deriving DecidableEq, Repr

/-- Modelled from the spec: scanning one table — a zero-row table signals
`StructureError`; otherwise row 0 (trimmed) is the header resolved by
HeaderResolver and all of the table's trimmed rows are fed to the
SectionStateMachine, which restarts in `SCANNING` per table
(spec §4.2, §4.3). -/
def scanTable (fields : List String) (table : List (List String)) (acc : FieldAcc) :
    Except StructureError FieldAcc :=
  match table with
  | [] => .error .emptyTable
  | hdrRaw :: restRaw =>
    let header := hdrRaw.map trimStr
    let rest := restRaw.map (fun r => r.map trimStr)
    .ok (scanRows fields header (header :: rest) acc)

/-- Modelled from the spec: DocumentTableScanner walking the document's
tables in order, threading the shared FieldAccumulator (spec §2, §4.2). -/
def scanDocument (fields : List String) :
    List (List (List String)) → FieldAcc → Except StructureError FieldAcc
  | [], acc => .ok acc
  | t :: ts, acc =>
    match scanTable fields t acc with
    | .error e => .error e
    | .ok acc2 => scanDocument fields ts acc2

/-- Modelled from the spec: RecordAssembler's per-field finalization — an
empty list or exactly `["Nil"]` yields "Nil", otherwise the fragments are
joined with "; " in order (spec §4.5). -/
def finalizeField : List String → String
  | [] => "Nil"
  | v :: rest =>
    if (v == nilSentinel) && rest.isEmpty then "Nil"
    else String.intercalate "; " (v :: rest)

/-- Modelled from the spec: stripping the document-extension suffix (the
text from the last dot on) from a source name; a name without a dot is
unchanged. -/
def stripDocExt (s : String) : String :=
  if s.data.contains '.' then
    String.mk (((s.data.reverse.dropWhile (fun c => c != '.')).drop 1).reverse)
  else s

/-- Modelled from the spec: dateLabel derivation — strip the known
document-extension suffix, then surrounding whitespace (spec §3, §8). -/
def dateLabel (name : String) : String :=
  trimStr (stripDocExt name)

/-- Modelled from the spec: the output record {sourceName, dateLabel,
values} with one entry per TrackedField keyed `<field>_HSE`
(spec §3, §6). -/
structure ExtractedRecord where
  sourceName : String
  dateLabel : String
  values : List (String × String)
deriving DecidableEq, Repr

/-- Modelled from the spec: RecordAssembler — finalizes the accumulated
fragments and combines them with the filename-derived metadata
(spec §4.5). -/
def assembleRecord (fields : List String) (sourceName : String) (acc : FieldAcc) :
    ExtractedRecord :=
  { sourceName := sourceName
    dateLabel := dateLabel sourceName
    values := fields.map (fun f => (f ++ "_HSE", finalizeField (acc f))) }

/-- Modelled from the spec: the full per-document extraction — scan all
tables with a fresh accumulator, then assemble one ExtractedRecord
(spec §2). -/
def extractDocument (fields : List String) (sourceName : String)
    (tables : List (List (List String))) : Except StructureError ExtractedRecord :=
  match scanDocument fields tables emptyAcc with
  | .error e => .error e
  | .ok acc => .ok (assembleRecord fields sourceName acc)

end HseExtractor

namespace GBBApp

/-- One row of the `gbb_records` table (`GBBRecord`, src/app.py:31-49):
`id` is the `Integer primary_key` and hence auto-increment;
`imported_date` is the insertion timestamp (`default=func.now()`, and
the importing path stamps `datetime.now()` explicitly).  The other columns
(gas_date, facility/location metadata and the float flow quantities) play no
role in the claims and are collapsed into the `payload` field. -/
structure GBBRow where
  id : Nat
  imported_date : Nat
  payload : String
deriving DecidableEq, Repr

/-- Auto-increment semantics of the integer primary key: the next id is one
past the largest id present. -/
def nextId (store : List GBBRow) : Nat :=
  (store.map GBBRow.id).foldr max 0 + 1

/-- Insert one row at time `t`; the store keeps rows in insertion order and
the database assigns the auto-increment key. -/
def insertRow (store : List GBBRow) (t : Nat) (p : String) : List GBBRow :=
  store ++ [{ id := nextId store, imported_date := t, payload := p }]

/-- Bulk append of dataframe rows (`to_sql(..., if_exists='append')`,
src/app.py:201), all stamped with the single `datetime.now()` taken at
src/app.py:179. -/
def bulkInsert (store : List GBBRow) (t : Nat) : List String → List GBBRow
  | [] => store
  | p :: ps => bulkInsert (insertRow store t p) t ps

/-- `get_gbb_records` (src/app.py:214-229): with a `None` session maker it
returns `[]`; otherwise it runs `session.query(GBBRecord).all()` — every
stored row in stored order, with no `order_by` and no limit ( `sessionOk`
covers both the `None` check and the exception path, which also yields
`[]`). -/
def get_gbb_records (sessionOk : Bool) (store : List GBBRow) : List GBBRow :=
  if sessionOk then store else []

/-- `import_gbb_data_to_db` (src/app.py:135-212) as a transition on the
stored rows, returning the function's boolean result and the resulting
store.  `sessionOk` models `session_maker is not None`, `df` the dataframe
argument (`none` = `None`), `insertOk` whether the bulk `to_sql` insert
succeeds.  The code first runs `session.query(GBBRecord).delete()` and then
`session.commit()` (src/app.py:144-146), so the wipe is committed before the
insert; on an insert exception it rolls back (the committed delete stands)
and returns `False`. -/
def import_gbb_data_to_db (sessionOk : Bool) (df : Option (List String))
    (insertOk : Bool) (t : Nat) (store : List GBBRow) : Bool × List GBBRow :=
  match df with
  | none => (false, store)
  | some rows =>
    if !sessionOk then (false, store)
    else if insertOk then (true, bulkInsert [] t rows)
    else (false, [])

/-- One parsed CSV row of the GBB dataframe; `gasDate` is the `GasDate`
column in abstract time units (months), `facilityName` the `FacilityName`
column. -/
structure CsvRow where
  gasDate : Nat
  facilityName : String
deriving DecidableEq, Repr

/-- The key-facility name list of src/app.py:111. -/
def keyFacilities : List String :=
  ["Mereenie", "Palm Valley", "Yellerr", "Yelcherr", "NGP"]

/-- Lower-casing for the case-insensitive facility match. -/
def toLowerStr (s : String) : String :=
  String.mk (s.data.map Char.toLower)

/-- `FacilityName.str.contains('|'.join(key_facilities), case=False)`
(src/app.py:114-115): case-insensitive substring match against any key
facility. -/
def isKeyFacility (name : String) : Bool :=
  keyFacilities.any (fun k => HseExtractor.containsSub (toLowerStr name) (toLowerStr k))

/-- The date filter of src/app.py:102-108: rows at or after the cutoff
`now - data_period_months` when the period is positive, all rows when the
period is 0 ("all data"). -/
def recentRows (months now : Nat) (rows : List CsvRow) : List CsvRow :=
  if 0 < months then rows.filter (fun r => now - months ≤ r.gasDate) else rows

/-- The distinct outcomes of the download/extract/parse attempt inside
`fetch_gbb_data`'s `try` block (src/app.py:72-133): a `requests` timeout, any
other `RequestException`, a ZIP whose namelist holds no `.csv` entry, any
other exception (corrupt ZIP, CSV decode/parse failure, missing column,
...), or a successfully parsed dataframe. -/
inductive FetchOutcome where
  | timeout
  | requestError
  | zipWithoutCsv
  | otherFailure
  | parsed (rows : List CsvRow)

/-- `key_data` (src/app.py:114): the rows naming a key facility. -/
def keyRows (recent : List CsvRow) : List CsvRow :=
  recent.filter (fun r => isKeyFacility r.facilityName)

/-- `other_data` (src/app.py:115): the rows naming no key facility. -/
def otherRows (recent : List CsvRow) : List CsvRow :=
  recent.filter (fun r => !isKeyFacility r.facilityName)

/-- src/app.py:118-119: the non-key rows are down-sampled to 15000 when they
exceed that count, and kept whole otherwise. -/
def sampledOther (sample : List CsvRow → List CsvRow) (other : List CsvRow) :
    List CsvRow :=
  if other.length > 15000 then sample other else other

/-- `fetch_gbb_data` (src/app.py:67-133).  Time is measured in months, so
the cutoff `now - data_period_months` models
`pd.Timestamp.now() - pd.DateOffset(months=...)`.  `sample` models
`DataFrame.sample(n=15000, random_state=42)` (src/app.py:119), a
pseudo-random selection of 15000 of the non-key-facility rows; the theorems
constrain it to return a sublist, which is all the claims need.  Every
failure branch is caught by one of the three `except` clauses and returns
`None`. -/
def fetch_gbb_data (outcome : FetchOutcome) (data_period_months now : Nat)
    (sample : List CsvRow → List CsvRow) : Option (List CsvRow) :=
  match outcome with
  | .timeout => none
  | .requestError => none
  | .zipWithoutCsv => none
  | .otherFailure => none
  | .parsed rows =>
    let recent := recentRows data_period_months now rows
    if recent.isEmpty then some recent
    else some (keyRows recent ++ sampledOther sample (otherRows recent))

/-- Is a list of timestamps in weakly descending order? -/
def sortedDesc : List Nat → Bool
  | [] => true
  | [_] => true
  | a :: b :: t => decide (b ≤ a) && sortedDesc (b :: t)

/-- A store reached by two single-row inserts at times 1 and 2. -/
def exStore : List GBBRow :=
  insertRow (insertRow [] 1 "A") 2 "B"

end GBBApp

/-! ## Theorems -/

namespace HseExtractor

theorem rowHasHse_of_stop (row : List String)
    (h : classifyRow row = RowAction.stopTable) : rowHasHse row = false := by
  cases hh : rowHasHse row with
  | false => rfl
  | true =>
    exfalso
    cases hb : isBlankRow row <;> simp [classifyRow, hh, hb] at h

theorem classifyRow_record (row : List String) (h1 : isBlankRow row = false)
    (h2 : rowHasHse row = true) : classifyRow row = RowAction.recordAndContinue := by
  simp [classifyRow, h1, h2]

theorem finalizeField_eq (l : List String) :
    finalizeField l =
      if l = [] ∨ l = [nilSentinel] then "Nil" else String.intercalate "; " l := by
  cases l with
  | nil => simp [finalizeField]
  | cons v rest =>
    cases rest with
    | nil => by_cases hv : v = nilSentinel <;> simp [finalizeField, hv]
    | cons w t => simp [finalizeField]

/-- C2: RecordAssembler finalization — an accumulated fragment list that is
empty or exactly `["Nil"]` yields the final value "Nil", and any other list
yields its fragments joined with "; " in accumulation order, for every
tracked field of the assembled record. -/
theorem assembleRecord_values_finalization (fields : List String) (name : String)
    (acc : FieldAcc) :
    (assembleRecord fields name acc).values =
      fields.map (fun f =>
        (f ++ "_HSE",
          if acc f = [] ∨ acc f = [nilSentinel] then "Nil"
          else String.intercalate "; " (acc f))) := by
  unfold assembleRecord
  simp only [finalizeField_eq]

/-- C3: a non-blank row with an "HSE" cell is classified as a field-data row
and the table scan continues past it (even if the row also holds a
"Production" cell), while `stopTable` classification entails the absence of
any "HSE" cell. -/
theorem hse_row_priority (fields header row row2 : List String)
    (rest : List (List String)) (acc : FieldAcc)
    (h1 : isBlankRow row = false) (h2 : rowHasHse row = true)
    (h3 : classifyRow row2 = RowAction.stopTable) :
    classifyRow row = RowAction.recordAndContinue ∧
    scanRows fields header (row :: rest) acc =
      scanRows fields header rest (processHseRow fields header row acc) ∧
    rowHasHse row2 = false := by
  have hc := classifyRow_record row h1 h2
  refine ⟨hc, ?_, rowHasHse_of_stop row2 h3⟩
  simp [scanRows, hc]

theorem hse_row_priority_witness :
    classifyRow ["HSE", "Production"] = RowAction.recordAndContinue ∧
    scanRows ["Mereenie"] ["Mereenie"] [["HSE", "Production"]] emptyAcc =
      scanRows ["Mereenie"] ["Mereenie"] []
        (processHseRow ["Mereenie"] ["Mereenie"] ["HSE", "Production"] emptyAcc) ∧
    rowHasHse ["Production"] = false :=
  hse_row_priority ["Mereenie"] ["Mereenie"] ["HSE", "Production"] ["Production"]
    [] emptyAcc (by decide) (by decide) (by decide)

/-- C4: a cell value "Nil" resets the field's accumulator to `["Nil"]`
whatever it held before; a later non-sentinel value appends onto that list,
so "Nil" then "Late comment" accumulates `["Nil", "Late comment"]` and
finalizes to "Nil; Late comment" — also checked through the full pipeline on
a two-HSE-row document. -/
theorem nil_reset_then_append (l : List String) :
    updateCell l nilSentinel = [nilSentinel] ∧
    updateCell [nilSentinel] "Late comment" = [nilSentinel, "Late comment"] ∧
    finalizeField [nilSentinel, "Late comment"] = "Nil; Late comment" ∧
    extractDocument ["Mereenie"] "d.ext"
        [[["Field", "Mereenie"], ["HSE", "Nil"], ["HSE", "Late comment"]]] =
      Except.ok { sourceName := "d.ext", dateLabel := "d",
                  values := [("Mereenie_HSE", "Nil; Late comment")] } :=
  ⟨by simp [updateCell], by decide, by decide, by rfl⟩

/-- C6: extraction is deterministic — running it twice on the same Document
value yields bit-identical results. -/
theorem extractDocument_deterministic (fields : List String) (name : String)
    (tables : List (List (List String))) :
    extractDocument fields name tables = extractDocument fields name tables := rfl

end HseExtractor

namespace HseExtractor

theorem rowHasHse_map_trim (row : List String) (h : ∀ c ∈ row, trimStr c ≠ hseMarker) :
    rowHasHse (row.map trimStr) = false := by
  rw [Bool.eq_false_iff]
  intro hb
  rw [rowHasHse, List.any_eq_true] at hb
  obtain ⟨c', hc', heq⟩ := hb
  rw [List.mem_map] at hc'
  obtain ⟨c, hc, rfl⟩ := hc'
  exact h c hc (by simpa using heq)

theorem scanRows_of_no_hse (fields header : List String) (rows : List (List String))
    (acc : FieldAcc) (h : ∀ r ∈ rows, rowHasHse r = false) :
    scanRows fields header rows acc = acc := by
  induction rows generalizing acc with
  | nil => rfl
  | cons r rs ih =>
    have hr : rowHasHse r = false := h r (by simp)
    have hrs : ∀ r' ∈ rs, rowHasHse r' = false := fun r' hm => h r' (by simp [hm])
    cases hc : classifyRow r with
    | stopTable => simp [scanRows, hc]
    | continueTable =>
      rw [scanRows, hc]
      exact ih acc hrs
    | recordAndContinue =>
      exfalso
      cases hb : isBlankRow r <;> cases hp : rowHasProduction r <;>
        simp [classifyRow, hr, hb, hp] at hc

theorem scanDocument_of_no_hse (fields : List String) (tables : List (List (List String)))
    (h : ∀ t ∈ tables, ∀ row ∈ t, ∀ c ∈ row, trimStr c ≠ hseMarker) (acc : FieldAcc) :
    scanDocument fields tables acc = .ok acc ∨
    scanDocument fields tables acc = .error .emptyTable := by
  induction tables generalizing acc with
  | nil => left; rfl
  | cons t ts ih =>
    have hts : ∀ t' ∈ ts, ∀ row ∈ t', ∀ c ∈ row, trimStr c ≠ hseMarker :=
      fun t' hm => h t' (by simp [hm])
    cases t with
    | nil => right; rfl
    | cons hdr rest =>
      have hrows : ∀ r ∈ (hdr.map trimStr) :: rest.map (fun r => r.map trimStr),
          rowHasHse r = false := by
        intro r hm
        rcases List.mem_cons.mp hm with rfl | hm2
        · exact rowHasHse_map_trim hdr (h (hdr :: rest) (by simp) hdr (by simp))
        · rw [List.mem_map] at hm2
          obtain ⟨r0, hr0, rfl⟩ := hm2
          exact rowHasHse_map_trim r0 (h (hdr :: rest) (by simp) r0 (by simp [hr0]))
      have hscan := scanRows_of_no_hse fields (hdr.map trimStr)
        ((hdr.map trimStr) :: rest.map (fun r => r.map trimStr)) acc hrows
      rw [scanDocument, scanTable]
      simp only []
      rw [hscan]
      exact ih hts acc

theorem scanDocument_error_iff (fields : List String) (tables : List (List (List String))) :
    ∀ acc, scanDocument fields tables acc = Except.error StructureError.emptyTable ↔
      [] ∈ tables := by
  induction tables with
  | nil => intro acc; simp [scanDocument]
  | cons t ts ih =>
    intro acc
    cases t with
    | nil => simp [scanDocument, scanTable]
    | cons hdr rest =>
      rw [scanDocument, scanTable]
      simp only []
      rw [ih]
      simp

theorem findColumn_none (field : String) (l : List String)
    (h : ∀ c ∈ l, c ≠ field) : findColumn field l = none := by
  induction l with
  | nil => rfl
  | cons c cs ih =>
    have hc : ¬(c = field) := h c (by simp)
    rw [findColumn, if_neg (by simpa using hc), ih (fun c' hm => h c' (by simp [hm]))]
    rfl

/-- C1: in a document in which no cell of any row trims to the "HSE"
marker, a successful extraction yields the default sentinel "Nil" as every
tracked field's final value. -/
theorem noHse_extract_all_nil (fields : List String) (name : String)
    (tables : List (List (List String)))
    (hno : ∀ t ∈ tables, ∀ row ∈ t, ∀ c ∈ row, trimStr c ≠ hseMarker)
    (rec : ExtractedRecord)
    (hok : extractDocument fields name tables = Except.ok rec) :
    rec.values = fields.map (fun f => (f ++ "_HSE", "Nil")) := by
  rcases scanDocument_of_no_hse fields tables hno emptyAcc with hsd | hsd <;>
    rw [extractDocument, hsd] at hok
  · cases hok
    simp [assembleRecord, emptyAcc, finalizeField]
  · cases hok

theorem noHse_extract_all_nil_witness :
    ({ sourceName := "a.ext", dateLabel := "a",
       values := [("Mereenie_HSE", "Nil"), ("Palm Valley_HSE", "Nil"),
                  ("BECGS/Dingo_HSE", "Nil")] } : ExtractedRecord).values =
      defaultFields.map (fun f => (f ++ "_HSE", "Nil")) :=
  noHse_extract_all_nil defaultFields "a.ext"
    [[["Field", "Mereenie"], ["foo", "bar"], ["Production", "1"]]]
    (by decide) _ (by rfl)

/-- C5: document scanning signals `StructureError` exactly when some table
has zero rows; a one-row table whose header cells are all blank still scans
without error, and a blank header leaves every non-empty field name
unmapped. -/
theorem structureError_iff_zero_rows (fields : List String) (name : String)
    (tables : List (List (List String))) (hdr : List String) (f : String)
    (hblank : ∀ c ∈ hdr, trimStr c = "") (hf : f ≠ "") :
    (extractDocument fields name tables = Except.error StructureError.emptyTable ↔
      [] ∈ tables) ∧
    (∃ acc, scanTable fields [hdr] emptyAcc = Except.ok acc) ∧
    resolveHeader (hdr.map trimStr) f = none := by
  refine ⟨?_, ⟨_, rfl⟩, ?_⟩
  · rw [extractDocument]
    cases hs : scanDocument fields tables emptyAcc with
    | error e =>
      cases e
      rw [← scanDocument_error_iff fields tables emptyAcc, hs]
      simp
    | ok acc =>
      rw [← scanDocument_error_iff fields tables emptyAcc, hs]
      simp
  · apply findColumn_none
    intro c' hm
    rw [List.mem_map] at hm
    obtain ⟨c, hc, rfl⟩ := hm
    rw [hblank c hc]
    exact fun he => hf he.symm

theorem structureError_iff_zero_rows_witness :
    (extractDocument defaultFields "a.ext" [[]] = Except.error StructureError.emptyTable ↔
      [] ∈ ([[]] : List (List (List String)))) ∧
    (∃ acc, scanTable defaultFields [["  ", ""]] emptyAcc = Except.ok acc) ∧
    resolveHeader (["  ", ""].map trimStr) "Mereenie" = none :=
  structureError_iff_zero_rows defaultFields "a.ext" [[]] ["  ", ""] "Mereenie"
    (by decide) (by decide)

/-- C7: the dateLabel derivation strips the document-extension suffix and
surrounding whitespace from the source name — for any base character list,
appending ".ext" and deriving gives back the trimmed base — and in
particular "2024-05-01.ext" yields "2024-05-01". -/
theorem dateLabel_strips_ext (base : List Char) :
    dateLabel (String.mk (base ++ ['.', 'e', 'x', 't'])) = trimStr (String.mk base) ∧
    dateLabel "2024-05-01.ext" = "2024-05-01" := by
  constructor
  · have h1 : (base ++ ['.', 'e', 'x', 't']).contains '.' = true := by
      simp [List.contains]
    have h2 : ((((base ++ ['.', 'e', 'x', 't']).reverse.dropWhile
        (fun c => c != '.')).drop 1).reverse) = base := by
      rw [List.reverse_append]
      simp [List.dropWhile_cons]
    unfold dateLabel stripDocExt
    rw [if_pos h1, h2]
  · decide

end HseExtractor

namespace GBBApp

/-- C8 counterexample: in a store built by two inserts at times 1 and 2, the
read path returns the rows in insertion order `[1, 2]` of `imported_date`,
which is not descending — `get_gbb_records` applies no ordering (and no
limit). -/
theorem get_gbb_records_not_sorted_capped :
    (get_gbb_records true exStore).map GBBRow.imported_date = [1, 2] ∧
    sortedDesc ((get_gbb_records true exStore).map GBBRow.imported_date) = false := by
  decide

/-- C8 (amended): records are stored keyed by an auto-increment id, and the
read path returns all stored records in stored (insertion) order, without
ordering by insertion time descending and without a cap. -/
theorem gbb_autoincrement_read_all (store : List GBBRow) (t : Nat) (p : String) :
    (insertRow store t p).map GBBRow.id = store.map GBBRow.id ++ [nextId store] ∧
    get_gbb_records true store = store := by
  constructor
  · simp [insertRow]
  · rfl

/-- C9: with a usable session maker and a dataframe, `import_gbb_data_to_db`
commits the deletion of all previously stored rows before the bulk insert —
a successful run ends with exactly the freshly inserted rows, and a failing
bulk insert returns `False` with the store left empty (the committed delete
is not restored). -/
theorem import_fail_leaves_deleted (rows : List String) (t : Nat) (store : List GBBRow) :
    import_gbb_data_to_db true (some rows) true t store = (true, bulkInsert [] t rows) ∧
    import_gbb_data_to_db true (some rows) false t store = (false, []) :=
  ⟨rfl, rfl⟩

theorem mem_recentRows (months now : Nat) (rows : List CsvRow) (r : CsvRow)
    (h : r ∈ recentRows months now rows) :
    r ∈ rows ∧ (0 < months → now - months ≤ r.gasDate) := by
  rw [recentRows] at h
  by_cases hm : 0 < months
  · rw [if_pos hm] at h
    rw [List.mem_filter] at h
    exact ⟨h.1, fun _ => by simpa using h.2⟩
  · rw [if_neg hm] at h
    exact ⟨h, fun hc => absurd hc hm⟩

/-- C10: every failure outcome of `fetch_gbb_data` (timeout, network error,
CSV-less ZIP, any other parse failure) returns `None` rather than
propagating; and a `some` result only holds rows of the parsed dataframe
which, when the period is positive, lie within the requested number of
months of `now` (no date filtering when the period is 0). -/
theorem fetch_gbb_data_safe (months now : Nat) (sample : List CsvRow → List CsvRow)
    (rows result : List CsvRow)
    (hsample : ∀ l, (sample l).Sublist l)
    (hres : fetch_gbb_data (.parsed rows) months now sample = some result) :
    (fetch_gbb_data .timeout months now sample = none ∧
     fetch_gbb_data .requestError months now sample = none ∧
     fetch_gbb_data .zipWithoutCsv months now sample = none ∧
     fetch_gbb_data .otherFailure months now sample = none) ∧
    ∀ r ∈ result, r ∈ rows ∧ (0 < months → now - months ≤ r.gasDate) := by
  refine ⟨⟨rfl, rfl, rfl, rfl⟩, ?_⟩
  intro r hr
  apply mem_recentRows months now rows r
  simp only [fetch_gbb_data] at hres
  split at hres
  · cases hres
    exact hr
  · cases hres
    rcases List.mem_append.mp hr with hk | ho
    · exact (List.mem_filter.mp hk).1
    · rw [sampledOther] at ho
      have ho2 : r ∈ otherRows (recentRows months now rows) := by
        split at ho
        · exact (hsample _).subset ho
        · exact ho
      exact (List.mem_filter.mp ho2).1

theorem fetch_gbb_data_safe_witness :
    fetch_gbb_data FetchOutcome.timeout 1 10 (fun _ => []) = none ∧
    (⟨10, "A"⟩ : CsvRow) ∈ [(⟨10, "A"⟩ : CsvRow), ⟨0, "B"⟩] ∧
    (0 < 1 → 10 - 1 ≤ (⟨10, "A"⟩ : CsvRow).gasDate) := by
  have h := fetch_gbb_data_safe 1 10 (fun _ => []) [⟨10, "A"⟩, ⟨0, "B"⟩] [⟨10, "A"⟩]
    (fun l => List.nil_sublist l) (by rfl)
  exact ⟨h.1.1, h.2 ⟨10, "A"⟩ (by decide)⟩

end GBBApp
